import Mathlib

/-!
Shallow embedding of the `awskms` repository: two small AWS inventory tools.

* `main.go` — lists KMS keys (paginated `ListKeys`), enriches each key via
  `DescribeKey` (`getKeyInfo`), classifies authorization failures, fetches tags
  for enabled keys, and renders fixed-width text tables.
* `secpq.go` — lists Secrets Manager secrets (paginated `ListSecrets`),
  normalizes each one into a `SecretRecord`, and exports them to a parquet file.

Network clients are modelled as explicit functions returning `Except`; the
paginated listing APIs are modelled by the list of successive responses the
loop would receive.  Go maps are modelled as association lists built with
last-write-wins insertion, with Go's zero-value lookup semantics.
-/

/-- Character-list test: does `pat` occur at the start of `l`?
Models the prefix comparison underlying Go's `strings.Contains` scan. -/
def segStarts : List Char → List Char → Bool
  | [], _ => true
  | _ :: _, [] => false
  | a :: as, b :: bs => a = b && segStarts as bs

/-- Character-list test: does `pat` occur contiguously anywhere in the list? -/
def segIn (pat : List Char) : List Char → Bool
  | [] => pat.isEmpty
  | c :: rest => segStarts pat (c :: rest) || segIn pat rest

/-- Model of Go's `strings.Contains s pat` (substring containment). -/
def strContains (s pat : String) : Bool := segIn pat.data s.data

/-- Boolean lexicographic order on character lists (models byte-wise
`sort.Strings` order; identical on ASCII data). -/
def lexLe : List Char → List Char → Bool
  | [], _ => true
  | _ :: _, [] => false
  | a :: as, b :: bs => if a = b then lexLe as bs else decide (a < b)

/-- Lexicographic `≤` on strings, used to model Go's `sort.Strings`. -/
def strLe (s t : String) : Bool := lexLe s.data t.data

/-- Go map write `m[k] = v`: overwrite the entry for `k` if present,
otherwise append it. -/
def mapUpsert (m : List (String × String)) (k v : String) : List (String × String) :=
  if m.any (fun p => p.1 = k) then
    m.map (fun p => if p.1 = k then (k, v) else p)
  else
    m ++ [(k, v)]

/-- Build a Go map from a list of key/value pairs (later entries win). -/
def mapFromPairs (ts : List (String × String)) : List (String × String) :=
  ts.foldl (fun m p => mapUpsert m p.1 p.2) []

/-- Go map read `m[k]` on a `map[string]string`: the stored value, or the
zero value `""` when the key is absent. -/
def mapGet (m : List (String × String)) (k : String) : String :=
  match m.find? (fun p => p.1 = k) with
  | some p => p.2
  | none => ""

/-! ## KMS tool (`main.go`): data model and enrichment -/

/-- The fields of `DescribeKey`'s `KeyMetadata` that `main.go` reads:
`KeyState`, `CreationDate` (epoch seconds, optional), `KeySpec`, `KeyManager`. -/
structure KeyMetadata where
  keyState : String
  creationDate : Option Int
  keySpec : String
  keyManager : String
deriving DecidableEq

/-- The KMS client as used by `main.go`: `DescribeKey` returns metadata or an
error message string (Go's `err.Error()` text); `ListResourceTags` returns the
tag list or an error. -/
structure KmsClient where
  describeKey : String → Except String KeyMetadata
  listResourceTags : String → Except String (List (String × String))

/-- `KeyInfo` from `main.go`: key id, status string, creation date
(Go zero `time.Time` modelled as `none`), key type, and the tag map. -/
structure KeyInfo where
  keyID : String
  status : String
  creationDate : Option Int
  keyType : String
  tags : List (String × String)
deriving DecidableEq

/-- The access-denied test at `main.go:156`:
`strings.Contains(err.Error(), "AccessDenied") || strings.Contains(err.Error(), "not authorized")`. -/
def isAccessDeniedMsg (e : String) : Bool :=
  strContains e "AccessDenied" || strContains e "not authorized"

/-- `getKeyInfo` (`main.go:142-190`): describe the key; on an access-denied
error return status `"Not Authorized"`; on any other error return
`"Error: <message>"`; on success pass the key state through verbatim, copy
creation date and key spec, and fetch tags only when the state is `"Enabled"`,
swallowing any tag-listing failure. -/
def getKeyInfo (client : KmsClient) (keyID : String) : KeyInfo :=
  match client.describeKey keyID with
  | Except.error e =>
      if isAccessDeniedMsg e then
        { keyID := keyID, status := "Not Authorized", creationDate := none,
          keyType := "", tags := [] }
      else
        { keyID := keyID, status := "Error: " ++ e, creationDate := none,
          keyType := "", tags := [] }
  | Except.ok md =>
      let base : KeyInfo :=
        { keyID := keyID, status := md.keyState, creationDate := md.creationDate,
          keyType := md.keySpec, tags := [] }
      if md.keyState = "Enabled" then
        match client.listResourceTags keyID with
        | Except.ok ts => { base with tags := mapFromPairs ts }
        | Except.error _ => base
      else base

/-- The accumulating state of the collection loop in `main` (`main.go:53-69`):
the two reported partitions and the set of tag keys seen on enabled keys
(Go's `map[string]bool` set, modelled as an insertion-ordered duplicate-free
list). -/
structure Collected where
  enabledKeys : List KeyInfo
  notAuthorizedKeys : List KeyInfo
  allTagKeys : List String
deriving DecidableEq

/-- Set insertion for the `allTagKeys` set. -/
def setInsert (s : List String) (k : String) : List String :=
  if k ∈ s then s else s ++ [k]

/-- One iteration of the loop at `main.go:58-69`: route the record into
`notAuthorizedKeys` when its status is `"Not Authorized"`, else into
`enabledKeys` when it is `"Enabled"` (also collecting its tag keys);
any other status falls through both branches. -/
def collectStep (st : Collected) (info : KeyInfo) : Collected :=
  if info.status = "Not Authorized" then
    { st with notAuthorizedKeys := st.notAuthorizedKeys ++ [info] }
  else if info.status = "Enabled" then
    { st with enabledKeys := st.enabledKeys ++ [info],
              allTagKeys := (info.tags.map Prod.fst).foldl setInsert st.allTagKeys }
  else st

/-- The collection loop of `main` over the listed key ids: enrich each id with
`getKeyInfo` and fold `collectStep`. -/
def collectKeys (client : KmsClient) (keys : List String) : Collected :=
  (keys.map (getKeyInfo client)).foldl collectStep ⟨[], [], []⟩

/-- `sort.Strings(sortedTagKeys)` at `main.go:71-76`: the discovered tag-key
columns, lexicographically sorted. -/
def sortedTagKeys (c : Collected) : List String :=
  List.insertionSort (fun a b => strLe a b = true) c.allTagKeys

/-! ## KMS tool: pagination (`listAllKeys`, `main.go:100-140`) -/

/-- One `ListKeys` response page: the listed key ids and the `Truncated` flag. -/
structure ListPage where
  keys : List String
  truncated : Bool
deriving DecidableEq

/-- The per-item keep decision of the filtering loop (`main.go:115-131`): a key
whose `DescribeKey` fails is kept (it might be not-authorized); a key whose
describe succeeds is kept exactly when its `KeyManager` is `"CUSTOMER"`
(customer managed, not AWS managed). -/
def keepKey (describe : String → Except String KeyMetadata) (k : String) : Bool :=
  match describe k with
  | Except.error _ => true
  | Except.ok md => md.keyManager = "CUSTOMER"

/-- `listAllKeys` (`main.go:100-140`) over the successive `ListKeys` responses:
an error response aborts the whole listing; a page's keys are filtered with one
`DescribeKey` lookup each; the loop continues while `Truncated` is set. -/
def listAllKeys (describe : String → Except String KeyMetadata) :
    List (Except String ListPage) → Except String (List String)
  | [] => Except.ok []
  | Except.error e :: _ => Except.error e
  | Except.ok p :: rest =>
      let kept := p.keys.filter (keepKey describe)
      if p.truncated then
        match listAllKeys describe rest with
        | Except.error e => Except.error e
        | Except.ok more => Except.ok (kept ++ more)
      else Except.ok kept

/-- The sequence of `DescribeKey` calls the filtering loop issues: one per
listed key of every successfully fetched page, in listing order. -/
def listAllKeysCalls : List (Except String ListPage) → List String
  | [] => []
  | Except.error _ :: _ => []
  | Except.ok p :: rest =>
      p.keys ++ (if p.truncated then listAllKeysCalls rest else [])

/-- The pages the loop actually consumes: every page up to and including the
first one whose `Truncated` flag is false. -/
def consumedPages : List ListPage → List ListPage
  | [] => []
  | p :: rest => if p.truncated then p :: consumedPages rest else [p]

/-! ## KMS tool: table rendering (`printEnabledKeysTable`, `main.go:192-290`) -/

/-- The header row at `main.go:194-195`: four fixed columns followed by the
discovered tag-key columns. -/
def tableHeaders (tagKeys : List String) : List String :=
  ["Key ID", "Status", "Creation Date", "Key Type"] ++ tagKeys

/-- The raw cell texts whose lengths the width computation at
`main.go:206-227` inspects: key id, status, the formatted creation date, key
type, and the raw tag map lookups (`key.Tags[tagKey]`, `""` when absent).
`fmtDate` stands for Go's `time.Format("2006-01-02 15:04:05")`, which is
applied identically during width computation and row rendering. -/
def rawCells (fmtDate : Option Int → String) (tagKeys : List String)
    (k : KeyInfo) : List String :=
  [k.keyID, k.status, fmtDate k.creationDate, k.keyType]
    ++ tagKeys.map (fun tk => mapGet k.tags tk)

/-- The tag-cell substitution at `main.go:241-246`: a missing (zero-value)
tag renders as the placeholder `"-"`. -/
def renderTagCell (k : KeyInfo) (tk : String) : String :=
  let v := mapGet k.tags tk
  if v = "" then "-" else v

/-- The cell texts actually printed for a data row (`main.go:234-248`). -/
def renderCells (fmtDate : Option Int → String) (tagKeys : List String)
    (k : KeyInfo) : List String :=
  [k.keyID, k.status, fmtDate k.creationDate, k.keyType]
    ++ tagKeys.map (renderTagCell k)

/-- The width computation of `printEnabledKeysTable` (`main.go:197-227`):
start from the header lengths and take the running maximum with each row's
raw cell lengths. -/
def colWidths (fmtDate : Option Int → String) (tagKeys : List String)
    (ks : List KeyInfo) : List Nat :=
  ks.foldl
    (fun ws k => List.zipWith max ws ((rawCells fmtDate tagKeys k).map String.length))
    ((tableHeaders tagKeys).map String.length)

/-- Go's `fmt.Printf("%-*s", w, s)`: left-justify `s` in a field of width `w`,
padding with spaces and never truncating. -/
def padRight (s : String) (w : Nat) : String :=
  s ++ String.mk (List.replicate (w - s.length) ' ')

/-- `printRow` (`main.go:278-283`): each value padded to its column width,
framed by `"| "` separators and a closing `"|"`. -/
def printRow (values : List String) (widths : List Nat) : String :=
  String.join ((values.zip widths).map (fun p => "| " ++ padRight p.1 p.2 ++ " ")) ++ "|"

/-! ## Secrets tool (`secpq.go`) -/

/-- A Go error as classified by `isNotAuthorizedError` (`secpq.go:148-158`):
either a smithy API error carrying an error code, or any other error. -/
inductive GoErr where
  | api (code : String) (msg : String)
  | plain (msg : String)
deriving DecidableEq

/-- `isNotAuthorizedError` (`secpq.go:148-158`): an API error whose code is one
of the explicit denial codes or contains `"NotAuthorized"`; non-API errors
never match. -/
def isNotAuthorizedError : GoErr → Bool
  | GoErr.api code _ =>
      code = "AccessDeniedException" || code = "UnauthorizedOperation" ||
      code = "UnauthorizedException" || strContains code "NotAuthorized"
  | GoErr.plain _ => false

/-- The fields of a listed secret that `listSecrets` reads: name, optional
description, optional created/last-accessed times (epoch seconds), tag list. -/
structure SecretInput where
  name : String
  description : Option String
  createdDate : Option Int
  lastAccessedDate : Option Int
  tags : List (String × String)
deriving DecidableEq

/-- `SecretRecord` (`secpq.go:20-26`): the exported parquet row.  All optional
fields are nullable (`Option`); `lastAccessedDate` holds a parquet `DATE`
(days since epoch); `tags` is `none` when the source had no tags. -/
structure SecretRecord where
  name : String
  description : Option String
  createdDate : Option Int
  lastAccessedDate : Option Int
  tags : Option (List (String × String))
deriving DecidableEq

/-- Go's `int32(x)` conversion: wrap into `[-2^31, 2^31)`. -/
def int32wrap (x : Int) : Int := (x + 2 ^ 31) % 2 ^ 32 - 2 ^ 31

/-- `int32(t.Unix() / 86400)` (`secpq.go:107`): Go integer division truncates
toward zero, which is `Int.tdiv`. -/
def unixToDays (t : Int) : Int := int32wrap (Int.tdiv t 86400)

/-- The per-secret normalization in the body of `listSecrets`
(`secpq.go:92-121`): description kept only when present and non-empty;
created date passed through; last-accessed converted to days since epoch;
tags map built only when at least one tag exists. -/
def toSecretRecord (s : SecretInput) : SecretRecord :=
  { name := s.name
  , description :=
      match s.description with
      | some d => if d ≠ "" then some d else none
      | none => none
  , createdDate := s.createdDate
  , lastAccessedDate := s.lastAccessedDate.map unixToDays
  , tags := if s.tags.length > 0 then some (mapFromPairs s.tags) else none }

/-- One `ListSecrets` response page. -/
structure SecretsPage where
  secretList : List SecretInput
deriving DecidableEq

/-- The pagination loop of `listSecrets` (`secpq.go:82-123`) with its
accumulator: a page error matching the authorization-denial signature returns
the records accumulated so far successfully (after a stderr warning); any
other page error aborts the listing; a successful page appends its normalized
records. -/
def listSecretsAux (acc : List SecretRecord) :
    List (Except GoErr SecretsPage) → Except GoErr (List SecretRecord)
  | [] => Except.ok acc
  | Except.error e :: _ =>
      if isNotAuthorizedError e then Except.ok acc else Except.error e
  | Except.ok p :: rest =>
      listSecretsAux (acc ++ p.secretList.map toSecretRecord) rest

/-- `listSecrets` (`secpq.go:77-126`) over the successive page responses. -/
def listSecrets (pages : List (Except GoErr SecretsPage)) :
    Except GoErr (List SecretRecord) :=
  listSecretsAux [] pages

/-- The outcome of `secpq.go`'s `main` after a successful listing
(`secpq.go:50-61`): with zero secrets it prints `"No secrets found"` to stderr
and exits 0 without ever calling `writeParquet`; otherwise it calls
`writeParquet`, exiting 1 on failure and 0 (with a summary line) on success. -/
inductive ExportOutcome where
  | noSecrets
  | writeFailed (msg : String)
  | wrote (n : Nat)
deriving DecidableEq

/-- The post-listing control flow of `secpq.go`'s `main` (`secpq.go:50-61`),
with the `writeParquet` effect abstracted as `writeFile`. -/
def runExport (secrets : List SecretRecord)
    (writeFile : List SecretRecord → Except String Unit) : ExportOutcome :=
  if secrets.length = 0 then ExportOutcome.noSecrets
  else
    match writeFile secrets with
    | Except.error e => ExportOutcome.writeFailed e
    | Except.ok _ => ExportOutcome.wrote secrets.length

/-- The process exit status of each outcome. -/
def exitCode : ExportOutcome → Nat
  | ExportOutcome.noSecrets => 0
  | ExportOutcome.writeFailed _ => 1
  | ExportOutcome.wrote _ => 0


/-- All key ids listed on a sequence of pages, in listing order. -/
def pagesKeys : List ListPage → List String
  | [] => []
  | p :: ps => p.keys ++ pagesKeys ps

/-- The records `listSecrets` accumulates from a sequence of successful pages:
every listed secret normalized, in listing order. -/
def pageRecords : List SecretsPage → List SecretRecord
  | [] => []
  | p :: ps => p.secretList.map toSecretRecord ++ pageRecords ps

/-- The number of secrets listed on a sequence of pages. -/
def pageSecretCount : List SecretsPage → Nat
  | [] => 0
  | p :: ps => p.secretList.length + pageSecretCount ps

/-- Spec-side width computation, following the spec's words: the running
maximum of the header length and the lengths of the cell values *as rendered*
(placeholder `"-"` included).  To be compared with `colWidths`, which the
source computes from the raw (pre-placeholder) cell values. -/
def renderedWidths (fmtDate : Option Int → String) (tagKeys : List String)
    (ks : List KeyInfo) : List Nat :=
  ks.foldl
    (fun ws k => List.zipWith max ws ((renderCells fmtDate tagKeys k).map String.length))
    ((tableHeaders tagKeys).map String.length)

/-- A concrete client for the C5 example: two enabled keys, one tagged
`Env=prod`, the other `Team=x`. -/
def exTagClient : KmsClient :=
  { describeKey := fun _ => Except.ok ⟨"Enabled", some 0, "RSA_2048", "CUSTOMER"⟩
  , listResourceTags := fun k =>
      if k = "k1" then Except.ok [("Env", "prod")] else Except.ok [("Team", "x")] }

/-- A concrete client whose only key is disabled: its record lands in neither
reported partition. -/
def disabledClient : KmsClient :=
  { describeKey := fun _ => Except.ok ⟨"Disabled", none, "SYMMETRIC_DEFAULT", "CUSTOMER"⟩
  , listResourceTags := fun _ => Except.ok [] }

/-! ## Supporting lemmas -/

/-- `int32(x)` is the identity on values already in `int32` range. -/
lemma int32wrap_eq_self (x : Int) (h1 : -(2 ^ 31) ≤ x) (h2 : x < 2 ^ 31) :
    int32wrap x = x := by
  unfold int32wrap
  have hm : (x + 2 ^ 31) % 2 ^ 32 = x + 2 ^ 31 :=
    Int.emod_eq_of_lt (by omega) (by omega)
  omega

/-- Truncating division undoes an exact multiplication by 86400. -/
lemma tdiv_mul_86400 (N : Int) : Int.tdiv (N * 86400) 86400 = N :=
  Int.mul_tdiv_cancel N (by norm_num)

/-! ## Claims -/

/-- Claim C2: a detail-fetch failure whose message matches the access-denied
signature yields status `"Not Authorized"` with empty tags, regardless of the
message text; any other failure yields status `"Error: <message>"` with empty
tags.  Enrichment itself is total (`getKeyInfo` always returns a record). -/
theorem C2_enrich_error_classification (client : KmsClient) (keyID e : String)
    (hd : client.describeKey keyID = Except.error e) :
    (isAccessDeniedMsg e = true →
      getKeyInfo client keyID =
        { keyID := keyID, status := "Not Authorized", creationDate := none,
          keyType := "", tags := [] })
    ∧ (isAccessDeniedMsg e = false →
      getKeyInfo client keyID =
        { keyID := keyID, status := "Error: " ++ e, creationDate := none,
          keyType := "", tags := [] }) := by
  constructor <;> intro h <;> simp [getKeyInfo, hd, h]

/-- Witness for C2 at a concrete client whose describe call is denied. -/
theorem C2_enrich_error_classification_witness :
    getKeyInfo
      ⟨fun _ => Except.error "AccessDeniedException: kms:DescribeKey",
       fun _ => Except.error "unreachable"⟩ "key-1" =
      { keyID := "key-1", status := "Not Authorized", creationDate := none,
        keyType := "", tags := [] } :=
  (C2_enrich_error_classification
    ⟨fun _ => Except.error "AccessDeniedException: kms:DescribeKey",
     fun _ => Except.error "unreachable"⟩
    "key-1" "AccessDeniedException: kms:DescribeKey" rfl).1 (by decide)

/-- Claim C3 counterexample: a secret whose source description is the empty
string is exported exactly like a secret with no description at all — both
collapse to a null description, so the two representations are not
distinguishable. -/
theorem C3_description_collapse :
    toSecretRecord ⟨"db-password", some "", none, none, []⟩
      = toSecretRecord ⟨"db-password", none, none, none, []⟩
    ∧ (toSecretRecord ⟨"db-password", some "", none, none, []⟩).description = none := by
  decide

/-- Claim C3 (amended): an absent description exports as null, and an
empty-string description is normalized to null as well; only a non-empty
description survives as a string value. -/
theorem C3_description_null_normalization (s : SecretInput) :
    ((toSecretRecord s).description = none ↔
      s.description = none ∨ s.description = some "")
    ∧ (∀ d : String, s.description = some d → d ≠ "" →
      (toSecretRecord s).description = some d) := by
  constructor
  · cases hs : s.description with
    | none => simp [toSecretRecord, hs]
    | some d =>
      by_cases hd : d = "" <;> simp [toSecretRecord, hs, hd]
  · intro d hsd hd
    simp [toSecretRecord, hsd, hd]

/-- Witness for C3's amended statement at a concrete secret. -/
theorem C3_description_null_normalization_witness :
    (toSecretRecord ⟨"a", some "prod credentials", none, none, []⟩).description
      = some "prod credentials" :=
  (C3_description_null_normalization ⟨"a", some "prod credentials", none, none, []⟩).2
    "prod credentials" rfl (by decide)

/-- Claim C4: the exported last-accessed date is the epoch-second timestamp
integer-divided (truncated, as in Go) by 86400, for every timestamp whose day
count fits the `int32` parquet `DATE`; and the truncation is idempotent — a
timestamp lying exactly on epoch day N exports as day N. -/
theorem C4_last_accessed_truncation (s : SecretInput) (t : Int)
    (ht : s.lastAccessedDate = some t)
    (h1 : -(2 ^ 31) ≤ Int.tdiv t 86400) (h2 : Int.tdiv t 86400 < 2 ^ 31) :
    (toSecretRecord s).lastAccessedDate = some (Int.tdiv t 86400)
    ∧ ∀ N : Int, -(2 ^ 31) ≤ N → N < 2 ^ 31 → unixToDays (N * 86400) = N := by
  constructor
  · simp [toSecretRecord, ht, unixToDays, int32wrap_eq_self _ h1 h2]
  · intro N hN1 hN2
    unfold unixToDays
    rw [tdiv_mul_86400]
    exact int32wrap_eq_self N hN1 hN2

/-- Witness for C4 at the concrete timestamp 1700000000 (epoch day 19675). -/
theorem C4_last_accessed_truncation_witness :
    (toSecretRecord ⟨"a", none, none, some 1700000000, []⟩).lastAccessedDate
      = some (Int.tdiv 1700000000 86400)
    ∧ unixToDays (19675 * 86400) = 19675 := by
  have h := C4_last_accessed_truncation ⟨"a", none, none, some 1700000000, []⟩
    1700000000 rfl (by decide) (by decide)
  exact ⟨h.1, h.2 19675 (by decide) (by decide)⟩

/-- Claim C6: when the describe call succeeds with a non-`"Enabled"` state the
record is independent of the tag-listing collaborator (no tag call is issued)
and its tags are empty; when the state is `"Enabled"` and the tag call fails,
the failure is swallowed: tags stay empty and the status remains `"Enabled"`. -/
theorem C6_tags_best_effort (describe : String → Except String KeyMetadata)
    (tagsA tagsB : String → Except String (List (String × String)))
    (keyID : String) (md : KeyMetadata) (hd : describe keyID = Except.ok md) :
    (md.keyState ≠ "Enabled" →
      getKeyInfo ⟨describe, tagsA⟩ keyID = getKeyInfo ⟨describe, tagsB⟩ keyID
      ∧ (getKeyInfo ⟨describe, tagsA⟩ keyID).tags = [])
    ∧ (∀ e, md.keyState = "Enabled" → tagsA keyID = Except.error e →
      (getKeyInfo ⟨describe, tagsA⟩ keyID).tags = []
      ∧ (getKeyInfo ⟨describe, tagsA⟩ keyID).status = "Enabled") := by
  constructor
  · intro hne
    constructor <;> simp [getKeyInfo, hd, hne]
  · intro e hen hta
    constructor <;> simp [getKeyInfo, hd, hen, hta]

/-- Witness for C6 at a concrete disabled key. -/
theorem C6_tags_best_effort_witness :
    getKeyInfo
        ⟨fun _ => Except.ok ⟨"Disabled", some 0, "SYMMETRIC_DEFAULT", "CUSTOMER"⟩,
         fun _ => Except.ok [("Env", "prod")]⟩ "key-1"
      = getKeyInfo
        ⟨fun _ => Except.ok ⟨"Disabled", some 0, "SYMMETRIC_DEFAULT", "CUSTOMER"⟩,
         fun _ => Except.error "boom"⟩ "key-1"
    ∧ (getKeyInfo
        ⟨fun _ => Except.ok ⟨"Disabled", some 0, "SYMMETRIC_DEFAULT", "CUSTOMER"⟩,
         fun _ => Except.ok [("Env", "prod")]⟩ "key-1").tags = [] :=
  (C6_tags_best_effort
    (fun _ => Except.ok ⟨"Disabled", some 0, "SYMMETRIC_DEFAULT", "CUSTOMER"⟩)
    (fun _ => Except.ok [("Env", "prod")]) (fun _ => Except.error "boom")
    "key-1" ⟨"Disabled", some 0, "SYMMETRIC_DEFAULT", "CUSTOMER"⟩ rfl).1 (by decide)

/-- Claim C10: on an empty inventory the exporter exits with status 0 after
the stderr notice, and the export step is skipped entirely — the outcome does
not depend on the write-file collaborator, so the output file is never created
or modified. -/
theorem C10_empty_inventory_skips_export (secrets : List SecretRecord)
    (w1 w2 : List SecretRecord → Except String Unit) (h : secrets.length = 0) :
    runExport secrets w1 = ExportOutcome.noSecrets
    ∧ exitCode (runExport secrets w1) = 0
    ∧ runExport secrets w1 = runExport secrets w2 := by
  refine ⟨?_, ?_, ?_⟩ <;> simp [runExport, h, exitCode]

/-- Witness for C10 on the empty inventory, with a write collaborator that
would fail if it were ever invoked. -/
theorem C10_empty_inventory_skips_export_witness :
    runExport [] (fun _ => Except.error "disk full") = ExportOutcome.noSecrets
    ∧ exitCode (runExport [] (fun _ => Except.error "disk full")) = 0
    ∧ runExport [] (fun _ => Except.error "disk full")
        = runExport [] (fun _ => Except.ok ()) :=
  C10_empty_inventory_skips_export [] (fun _ => Except.error "disk full")
    (fun _ => Except.ok ()) rfl

/-- Running `listSecretsAux` through a block of successful pages appends their
normalized records to the accumulator. -/
lemma listSecretsAux_okPages (good : List SecretsPage) :
    ∀ (acc : List SecretRecord) (rest : List (Except GoErr SecretsPage)),
      listSecretsAux acc (good.map Except.ok ++ rest)
        = listSecretsAux (acc ++ pageRecords good) rest := by
  induction good with
  | nil => intro acc rest; simp [pageRecords]
  | cons p ps ih =>
      intro acc rest
      simp only [List.map_cons, List.cons_append, listSecretsAux, pageRecords,
        List.append_eq]
      rw [ih]
      rw [List.append_assoc]

/-- One exported row per listed secret. -/
lemma pageRecords_length (good : List SecretsPage) :
    (pageRecords good).length = pageSecretCount good := by
  induction good with
  | nil => rfl
  | cons p ps ih => simp [pageRecords, pageSecretCount, ih]

/-- `collectKeys`'s fold computes the two reported partitions as filters of the
record sequence. -/
lemma collect_foldl_parts (infos : List KeyInfo) :
    ∀ st : Collected,
      (infos.foldl collectStep st).enabledKeys
          = st.enabledKeys ++ infos.filter (fun i => i.status = "Enabled")
      ∧ (infos.foldl collectStep st).notAuthorizedKeys
          = st.notAuthorizedKeys ++ infos.filter (fun i => i.status = "Not Authorized") := by
  induction infos with
  | nil => intro st; simp
  | cons i rest ih =>
      intro st
      rw [List.foldl_cons]
      obtain ⟨e1, e2⟩ := ih (collectStep st i)
      by_cases hna : i.status = "Not Authorized"
      · have hne : ¬ i.status = "Enabled" := by rw [hna]; decide
        constructor
        · rw [e1]; simp [collectStep, hna, List.filter_cons, hne]
        · rw [e2]; simp [collectStep, hna, List.filter_cons, List.append_assoc]
      · by_cases hen : i.status = "Enabled"
        · constructor
          · rw [e1]; simp [collectStep, hna, hen, List.filter_cons, List.append_assoc]
          · rw [e2]; simp [collectStep, hna, hen, List.filter_cons]
        · constructor
          · rw [e1]; simp [collectStep, hna, hen, List.filter_cons]
          · rw [e2]; simp [collectStep, hna, hen, List.filter_cons]

/-- The three status partitions of the collection loop are exhaustive and
mutually exclusive, so their sizes add up to the number of records. -/
lemma filter_three_length (l : List KeyInfo) :
    (l.filter (fun i => i.status = "Enabled")).length
      + (l.filter (fun i => i.status = "Not Authorized")).length
      + (l.filter (fun i => ¬(i.status = "Not Authorized" ∨ i.status = "Enabled"))).length
      = l.length := by
  induction l with
  | nil => rfl
  | cons i rest ih =>
      by_cases h1 : i.status = "Enabled"
      · have h2 : ¬ i.status = "Not Authorized" := by rw [h1]; decide
        simp [List.filter_cons, h1, h2] at ih ⊢
        omega
      · by_cases h2 : i.status = "Not Authorized"
        · simp [List.filter_cons, h1, h2] at ih ⊢
          omega
        · simp [List.filter_cons, h1, h2] at ih ⊢
          omega

/-- Claim C1 counterexample: one listed key whose detail fetch returns state
`"Disabled"` — exactly one record is produced, but neither reported table
shows it, so the rows visible in the report do not add up to the number of
identifiers. -/
theorem C1_disabled_key_invisible :
    (["k1"].map (getKeyInfo disabledClient)).length = 1
    ∧ (collectKeys disabledClient ["k1"]).enabledKeys.length
        + (collectKeys disabledClient ["k1"]).notAuthorizedKeys.length = 0
    ∧ ¬((collectKeys disabledClient ["k1"]).enabledKeys.length
        + (collectKeys disabledClient ["k1"]).notAuthorizedKeys.length
        = (["k1"] : List String).length) := by
  decide

/-- Claim C1 (amended): enrichment is total — exactly one record per listed
identifier — and the columnar export keeps one row per listed secret; but the
tabular report shows only the `"Enabled"` and `"Not Authorized"` partitions,
so its visible row count falls short by the records in any other state. -/
theorem C1_one_record_per_identifier (client : KmsClient) (keys : List String)
    (good : List SecretsPage) :
    (keys.map (getKeyInfo client)).length = keys.length
    ∧ (collectKeys client keys).enabledKeys.length
        + (collectKeys client keys).notAuthorizedKeys.length
        + ((keys.map (getKeyInfo client)).filter
            (fun i => ¬(i.status = "Not Authorized" ∨ i.status = "Enabled"))).length
      = keys.length
    ∧ listSecrets (good.map Except.ok) = Except.ok (pageRecords good)
    ∧ (pageRecords good).length = pageSecretCount good := by
  refine ⟨List.length_map _ _, ?_, ?_, pageRecords_length good⟩
  · unfold collectKeys
    obtain ⟨e1, e2⟩ := collect_foldl_parts (keys.map (getKeyInfo client)) ⟨[], [], []⟩
    rw [e1, e2]
    simp only [List.nil_append]
    rw [filter_three_length]
    exact List.length_map _ _
  · unfold listSecrets
    have h := listSecretsAux_okPages good [] []
    simpa [listSecretsAux] using h

/-- Claim C8 counterexample: an authorization-denied page error in the middle
of pagination does not short-circuit to an *empty* successful result — the
records accumulated from earlier pages are returned, so the successful result
is non-empty. -/
theorem C8_midrun_denial_keeps_partial :
    listSecrets [Except.ok ⟨[⟨"s1", none, none, none, []⟩]⟩,
                 Except.error (GoErr.api "AccessDeniedException" "denied")]
      = Except.ok [toSecretRecord ⟨"s1", none, none, none, []⟩]
    ∧ (Except.ok [toSecretRecord ⟨"s1", none, none, none, []⟩]
        : Except GoErr (List SecretRecord)) ≠ Except.ok [] := by
  constructor
  · rfl
  · intro h
    simp at h

/-- Claim C8 (amended): a page error matching the authorization-denial
signature ends the listing successfully with the records accumulated so far
(empty exactly when the first page already fails); any other page error aborts
the whole listing with a propagated error and no partial result; a fully
successful listing yields every listed secret. -/
theorem C8_pagination_failure_modes (good : List SecretsPage) (e : GoErr)
    (rest : List (Except GoErr SecretsPage)) :
    (isNotAuthorizedError e = true →
      listSecrets (good.map Except.ok ++ Except.error e :: rest)
        = Except.ok (pageRecords good))
    ∧ (isNotAuthorizedError e = false →
      listSecrets (good.map Except.ok ++ Except.error e :: rest)
        = Except.error e)
    ∧ listSecrets (good.map Except.ok) = Except.ok (pageRecords good) := by
  have h1 : listSecrets (good.map Except.ok ++ Except.error e :: rest)
      = listSecretsAux (pageRecords good) (Except.error e :: rest) := by
    unfold listSecrets
    simpa using listSecretsAux_okPages good [] (Except.error e :: rest)
  have h2 : listSecrets (good.map Except.ok) = Except.ok (pageRecords good) := by
    unfold listSecrets
    simpa [listSecretsAux] using listSecretsAux_okPages good [] []
  refine ⟨fun h => ?_, fun h => ?_, h2⟩
  · rw [h1]; simp [listSecretsAux, h]
  · rw [h1]; simp [listSecretsAux, h]

/-- Witness for C8's amended statement: a first-page denial yields the empty
successful result, while a transport error propagates. -/
theorem C8_pagination_failure_modes_witness :
    listSecrets [Except.error (GoErr.api "AccessDeniedException" "denied")]
      = Except.ok (pageRecords [])
    ∧ listSecrets [Except.ok ⟨[⟨"s1", none, none, none, []⟩]⟩,
                   Except.error (GoErr.plain "connection reset")]
      = Except.error (GoErr.plain "connection reset") := by
  have h := C8_pagination_failure_modes []
    (GoErr.api "AccessDeniedException" "denied") []
  have h' := C8_pagination_failure_modes [⟨[⟨"s1", none, none, none, []⟩]⟩]
    (GoErr.plain "connection reset") []
  exact ⟨h.1 (by decide), h'.2.1 (by decide)⟩

/-- Claim C9: over the consumed pages, the Paginator issues exactly one
`DescribeKey` lookup per listed key (in listing order), keeps a key whose
lookup succeeds iff it is customer managed, and conservatively keeps every key
whose lookup fails. -/
theorem C9_pagination_filtering (describe : String → Except String KeyMetadata)
    (ps : List ListPage) :
    listAllKeys describe (ps.map Except.ok)
      = Except.ok ((pagesKeys (consumedPages ps)).filter (keepKey describe))
    ∧ listAllKeysCalls (ps.map Except.ok) = pagesKeys (consumedPages ps)
    ∧ ∀ k, k ∈ (pagesKeys (consumedPages ps)).filter (keepKey describe) ↔
        k ∈ pagesKeys (consumedPages ps) ∧
          ((∃ e, describe k = Except.error e) ∨
            ∃ md, describe k = Except.ok md ∧ md.keyManager = "CUSTOMER") := by
  refine ⟨?_, ?_, ?_⟩
  · induction ps with
    | nil => simp [listAllKeys, consumedPages, pagesKeys]
    | cons p rest ih =>
        by_cases hp : p.truncated <;>
          simp [listAllKeys, consumedPages, pagesKeys, hp, ih, List.filter_append]
  · induction ps with
    | nil => simp [listAllKeysCalls, consumedPages, pagesKeys]
    | cons p rest ih =>
        by_cases hp : p.truncated <;>
          simp [listAllKeysCalls, consumedPages, pagesKeys, hp, ih]
  · intro k
    have hk : keepKey describe k = true ↔
        ((∃ e, describe k = Except.error e) ∨
          ∃ md, describe k = Except.ok md ∧ md.keyManager = "CUSTOMER") := by
      cases hdk : describe k with
      | error e => simp [keepKey, hdk]
      | ok md => simp [keepKey, hdk]
    rw [List.mem_filter, hk]

/-- `lexLe` is total. -/
lemma lexLe_total (a : List Char) : ∀ b, lexLe a b = true ∨ lexLe b a = true := by
  induction a with
  | nil => intro b; left; simp [lexLe]
  | cons x xs ih =>
      intro b
      cases b with
      | nil => right; simp [lexLe]
      | cons y ys =>
          by_cases hxy : x = y
          · subst hxy
            simpa [lexLe] using ih ys
          · rcases lt_or_gt_of_ne hxy with h | h
            · left; simp [lexLe, hxy, h]
            · right; simp [lexLe, Ne.symm hxy, h]

/-- `lexLe` is transitive. -/
lemma lexLe_trans : ∀ a b c : List Char,
    lexLe a b = true → lexLe b c = true → lexLe a c = true := by
  intro a
  induction a with
  | nil => intro b c _ _; simp [lexLe]
  | cons x xs ih =>
      intro b c hab hbc
      cases b with
      | nil => simp [lexLe] at hab
      | cons y ys =>
          cases c with
          | nil => simp [lexLe] at hbc
          | cons z zs =>
              by_cases hxy : x = y
              · subst hxy
                by_cases hyz : x = z
                · subst hyz
                  simp only [lexLe, if_pos rfl] at hab hbc ⊢
                  exact ih ys zs hab hbc
                · simp only [lexLe, if_pos rfl] at hab
                  simp only [lexLe, if_neg hyz] at hbc ⊢
                  exact hbc
              · by_cases hyz : y = z
                · subst hyz
                  simp only [lexLe, if_neg hxy] at hab ⊢
                  exact hab
                · simp only [lexLe, if_neg hxy] at hab
                  simp only [lexLe, if_neg hyz] at hbc
                  have h1 : x < y := of_decide_eq_true hab
                  have h2 : y < z := of_decide_eq_true hbc
                  have h3 : x < z := lt_trans h1 h2
                  simp only [lexLe, if_neg (ne_of_lt h3)]
                  exact decide_eq_true h3

/-- Membership in `setInsert`. -/
lemma setInsert_mem (s : List String) (x k : String) :
    k ∈ setInsert s x ↔ k ∈ s ∨ k = x := by
  by_cases hx : x ∈ s
  · simp only [setInsert, if_pos hx]
    exact ⟨Or.inl, fun h => h.elim id (fun hk => hk ▸ hx)⟩
  · simp [setInsert, if_neg hx]

/-- Membership after folding `setInsert` over a list. -/
lemma foldl_setInsert_mem (l : List String) :
    ∀ (s : List String) (k : String), k ∈ l.foldl setInsert s ↔ k ∈ s ∨ k ∈ l := by
  induction l with
  | nil => intro s k; simp
  | cons x xs ih =>
      intro s k
      rw [List.foldl_cons, ih, setInsert_mem]
      simp [List.mem_cons]
      tauto

/-- Folding `setInsert` preserves freedom from duplicates. -/
lemma foldl_setInsert_nodup (l : List String) :
    ∀ s : List String, s.Nodup → (l.foldl setInsert s).Nodup := by
  induction l with
  | nil => intro s hs; simpa
  | cons x xs ih =>
      intro s hs
      rw [List.foldl_cons]
      apply ih
      by_cases hx : x ∈ s
      · simpa [setInsert, hx]
      · simp [setInsert, hx, List.nodup_append, hs, List.disjoint_singleton]

/-- A tag key is collected iff some `"Enabled"` record carries it. -/
lemma collect_allTagKeys_mem (infos : List KeyInfo) :
    ∀ (st : Collected) (k : String),
      k ∈ (infos.foldl collectStep st).allTagKeys ↔
        k ∈ st.allTagKeys ∨
          ∃ i ∈ infos, i.status = "Enabled" ∧ k ∈ i.tags.map Prod.fst := by
  induction infos with
  | nil => intro st k; simp
  | cons i rest ih =>
      intro st k
      rw [List.foldl_cons, ih]
      by_cases hna : i.status = "Not Authorized"
      · have hne : ¬ i.status = "Enabled" := by rw [hna]; decide
        simp [collectStep, hna, hne]
      · by_cases hen : i.status = "Enabled"
        · simp [collectStep, hna, hen, foldl_setInsert_mem]
          tauto
        · simp [collectStep, hna, hen]

/-- The collected tag-key set never contains duplicates. -/
lemma collect_allTagKeys_nodup (infos : List KeyInfo) :
    ∀ st : Collected, st.allTagKeys.Nodup →
      ((infos.foldl collectStep st).allTagKeys).Nodup := by
  induction infos with
  | nil => intro st h; simpa
  | cons i rest ih =>
      intro st h
      rw [List.foldl_cons]
      apply ih
      by_cases hna : i.status = "Not Authorized"
      · simpa [collectStep, hna]
      · by_cases hen : i.status = "Enabled"
        · simp only [collectStep, if_neg hna, if_pos hen]
          exact foldl_setInsert_nodup _ _ h
        · simpa [collectStep, hna, hen]

/-- Claim C5: the discovered columns are lexicographically sorted, free of
duplicates, and contain exactly the union of tag keys over `"Enabled"`
records; on the example client (tags `Env=prod` and `Team=x` on two enabled
keys) they are exactly `["Env", "Team"]`. -/
theorem C5_discovered_columns (client : KmsClient) (keys : List String) :
    List.Sorted (fun a b => strLe a b = true)
      (sortedTagKeys (collectKeys client keys))
    ∧ (sortedTagKeys (collectKeys client keys)).Nodup
    ∧ (∀ k, k ∈ sortedTagKeys (collectKeys client keys) ↔
        ∃ i ∈ keys.map (getKeyInfo client),
          i.status = "Enabled" ∧ k ∈ i.tags.map Prod.fst)
    ∧ sortedTagKeys (collectKeys exTagClient ["k1", "k2"]) = ["Env", "Team"] := by
  haveI instTot : IsTotal String (fun a b => strLe a b = true) :=
    ⟨fun a b => lexLe_total a.data b.data⟩
  haveI instTrans : IsTrans String (fun a b => strLe a b = true) :=
    ⟨fun a b c => lexLe_trans a.data b.data c.data⟩
  have hperm := List.perm_insertionSort (fun a b => strLe a b = true)
    (collectKeys client keys).allTagKeys
  refine ⟨List.sorted_insertionSort _ _, ?_, ?_, by decide⟩
  · rw [sortedTagKeys, hperm.nodup_iff]
    exact collect_allTagKeys_nodup _ _ (by simp)
  · intro k
    rw [sortedTagKeys, hperm.mem_iff, collectKeys, collect_allTagKeys_mem]
    simp

/-- The raw cell row always has one entry per column. -/
lemma rawCells_length (f : Option Int → String) (tks : List String) (k : KeyInfo) :
    (rawCells f tks k).length = 4 + tks.length := by
  simp [rawCells]
  omega

/-- A non-empty string has length at least one. -/
lemma one_le_length_of_ne (s : String) (h : s ≠ "") : 1 ≤ s.length := by
  cases s with
  | mk d =>
    cases d with
    | nil => exact absurd rfl h
    | cons c cs => simp [String.length]

/-- `getD` through `zipWith max`, for in-range indices. -/
lemma getD_zipWith_max (ws ls : List Nat) (i : Nat)
    (h1 : i < ws.length) (h2 : i < ls.length) :
    (List.zipWith max ws ls).getD i 0 = max (ws.getD i 0) (ls.getD i 0) := by
  have hz : i < (List.zipWith max ws ls).length := by
    rw [List.length_zipWith]; exact lt_min h1 h2
  rw [List.getD_eq_getElem _ _ hz, List.getD_eq_getElem _ _ h1,
    List.getD_eq_getElem _ _ h2, List.getElem_zipWith]

/-- Skipping the four fixed columns of a width row. -/
lemma getD_cons4 (a b c d : Nat) (l : List Nat) (j : Nat) :
    (a :: b :: c :: d :: l).getD (4 + j) 0 = l.getD j 0 := by
  simp [show 4 + j = j + 1 + 1 + 1 + 1 from by omega, List.getD_cons_succ]

/-- On the tag columns, maxing a width row against the raw cell lengths agrees
with maxing it against the rendered cell lengths, as long as every running
width is at least 1 (the placeholder `"-"` has length 1, and it only replaces
a raw length of 0). -/
lemma zip_tags_eq (k : KeyInfo) : ∀ (tks : List String) (ws : List Nat),
    (∀ j, j < tks.length → 1 ≤ ws.getD j 0) →
    List.zipWith max ws (tks.map (fun tk => (mapGet k.tags tk).length))
      = List.zipWith max ws (tks.map (fun tk => (renderTagCell k tk).length)) := by
  intro tks
  induction tks with
  | nil => intro ws _; simp
  | cons tk rest ih =>
      intro ws hge
      cases ws with
      | nil => simp
      | cons w wrest =>
          have hw : 1 ≤ w := by simpa using hge 0 (by simp)
          simp only [List.map_cons, List.zipWith_cons_cons]
          congr 1
          · by_cases hv : mapGet k.tags tk = ""
            · have hdash : ("-" : String).length = 1 := rfl
              simp [renderTagCell, hv, hdash]
              omega
            · simp [renderTagCell, hv]
          · apply ih
            intro j hj
            simpa using hge (j + 1) (by simpa using Nat.succ_lt_succ hj)

/-- One width-update step computes the same result from raw and from rendered
cells, provided the current tag-column widths are at least 1. -/
lemma zip_step_eq (f : Option Int → String) (tks : List String) (k : KeyInfo)
    (ws : List Nat) (hlen : ws.length = 4 + tks.length)
    (hge : ∀ j, j < tks.length → 1 ≤ ws.getD (4 + j) 0) :
    List.zipWith max ws ((rawCells f tks k).map String.length)
      = List.zipWith max ws ((renderCells f tks k).map String.length) := by
  obtain ⟨a, b, c, d, wrest, rfl⟩ :
      ∃ a b c d wrest, ws = a :: b :: c :: d :: wrest := by
    rcases ws with _ | ⟨a, _ | ⟨b, _ | ⟨c, _ | ⟨d, wrest⟩⟩⟩⟩
    · simp at hlen
      omega
    · simp at hlen; omega
    · simp at hlen; omega
    · simp at hlen; omega
    · exact ⟨a, b, c, d, wrest, rfl⟩
  simp only [rawCells, renderCells, List.cons_append, List.nil_append,
    List.map_cons, List.map_append, List.map_map, List.zipWith_cons_cons]
  congr 1
  congr 1
  congr 1
  congr 1
  have hge' : ∀ j, j < tks.length → 1 ≤ wrest.getD j 0 := by
    intro j hj
    have := hge j hj
    rwa [getD_cons4] at this
  exact zip_tags_eq k tks wrest hge'

/-- Folding the width computation over the rows from raw cells equals folding
it from rendered cells, provided the starting tag-column widths are at
least 1. -/
lemma fold_widths_eq (f : Option Int → String) (tks : List String) :
    ∀ (ks : List KeyInfo) (ws : List Nat),
      ws.length = 4 + tks.length →
      (∀ j, j < tks.length → 1 ≤ ws.getD (4 + j) 0) →
      ks.foldl
          (fun ws k => List.zipWith max ws ((rawCells f tks k).map String.length)) ws
        = ks.foldl
          (fun ws k => List.zipWith max ws ((renderCells f tks k).map String.length)) ws := by
  intro ks
  induction ks with
  | nil => intro ws _ _; rfl
  | cons k rest ih =>
      intro ws hlen hge
      rw [List.foldl_cons, List.foldl_cons, ← zip_step_eq f tks k ws hlen hge]
      apply ih
      · rw [List.length_zipWith, List.length_map, rawCells_length, hlen, min_self]
      · intro j hj
        have hlt1 : 4 + j < ws.length := by rw [hlen]; omega
        have hlt2 : 4 + j < ((rawCells f tks k).map String.length).length := by
          rw [List.length_map, rawCells_length]; omega
        rw [getD_zipWith_max _ _ _ hlt1 hlt2]
        exact le_trans (hge j hj) (le_max_left _ _)

/-- The header widths of the tag columns are at least 1 when every tag key is
non-empty. -/
lemma init_widths_ge (tks : List String) (hne : ∀ tk ∈ tks, tk ≠ "")
    (j : Nat) (hj : j < tks.length) :
    1 ≤ ((tableHeaders tks).map String.length).getD (4 + j) 0 := by
  have hshape : (tableHeaders tks).map String.length
      = "Key ID".length :: "Status".length :: "Creation Date".length ::
          "Key Type".length :: tks.map String.length := by
    simp [tableHeaders]
  rw [hshape, getD_cons4]
  have hjl : j < (tks.map String.length).length := by simpa using hj
  rw [List.getD_eq_getElem _ _ hjl, List.getElem_map]
  exact one_le_length_of_ne _ (hne _ (List.getElem_mem _))

/-- Claim C7 counterexample: with a discovered tag column whose key is the
empty string and whose only stored value is empty, the computed width (0) is
smaller than the rendered placeholder cell `"-"` (length 1), so the column
width does not equal the maximum rendered length. -/
theorem C7_empty_tag_key_width_gap :
    (colWidths (fun _ => "2024-01-01 00:00:00") [""]
        [⟨"k", "Enabled", none, "", [("", "")]⟩]).getD 4 0 = 0
    ∧ ((renderCells (fun _ => "2024-01-01 00:00:00") [""]
        ⟨"k", "Enabled", none, "", [("", "")]⟩).getD 4 "").length = 1
    ∧ ¬((colWidths (fun _ => "2024-01-01 00:00:00") [""]
        [⟨"k", "Enabled", none, "", [("", "")]⟩]).getD 4 0
      = max (((tableHeaders [""]).getD 4 "").length)
          (((renderCells (fun _ => "2024-01-01 00:00:00") [""]
              ⟨"k", "Enabled", none, "", [("", "")]⟩).getD 4 "").length)) := by
  decide

/-- Claim C7 (amended): the width computation (which uses the raw tag values)
agrees with the maximum over header and *rendered* cell lengths whenever every
discovered tag key is non-empty (always the case for real AWS tag keys, whose
length is at least 1); the padding primitive never truncates a cell; and a
missing tag value renders as the placeholder `"-"`. -/
theorem C7_table_rendering (f : Option Int → String) (tks : List String)
    (ks : List KeyInfo) (hne : ∀ tk ∈ tks, tk ≠ "") :
    colWidths f tks ks = renderedWidths f tks ks
    ∧ (∀ (s : String) (w : Nat), ∃ pad, padRight s w = s ++ pad)
    ∧ ∀ (k : KeyInfo) (tk : String), mapGet k.tags tk = "" →
        renderTagCell k tk = "-" := by
  refine ⟨?_, ?_, ?_⟩
  · unfold colWidths renderedWidths
    apply fold_widths_eq f tks ks
    · simp [tableHeaders]
      omega
    · intro j hj
      exact init_widths_ge tks hne j hj
  · intro s w
    exact ⟨_, rfl⟩
  · intro k tk h
    simp [renderTagCell, h]

/-- Witness for C7's amended statement at a concrete table. -/
theorem C7_table_rendering_witness :
    colWidths (fun _ => "2024-01-01 00:00:00") ["Env"]
        [⟨"key-1", "Enabled", none, "RSA_2048", [("Env", "prod")]⟩]
      = renderedWidths (fun _ => "2024-01-01 00:00:00") ["Env"]
        [⟨"key-1", "Enabled", none, "RSA_2048", [("Env", "prod")]⟩]
    ∧ renderTagCell ⟨"key-2", "Enabled", none, "RSA_2048", [("Env", "prod")]⟩
        "Team" = "-" := by
  have h := C7_table_rendering (fun _ => "2024-01-01 00:00:00") ["Env"]
    [⟨"key-1", "Enabled", none, "RSA_2048", [("Env", "prod")]⟩] (by decide)
  exact ⟨h.1, h.2.2 _ "Team" (by decide)⟩
